import Mathlib

/-!
# Verification of `meeting_scheduler_ortools.py`

A shallow embedding of the scheduling core of `meeting_scheduler_ortools.py`:
the time-slot model, the availability resolver, the candidate generator, the
discomfort cost model, the CP-SAT constraint encoding (as satisfaction
predicates on boolean assignments), and the post-solve status dispatch.

Conventions used throughout:
* clock times are given as minutes since local midnight (the source stores
  `datetime.time` values and immediately converts them via `hour * 60 + minute`);
* a participant's UTC offset is given as whole minutes (the source computes
  `offset_minutes = int(round(utc_offset_hours * 60))` once at the top of
  `local_window_to_utc_slots`; we take that integer directly);
* Python's `math.floor(a / b)` on integers with `b > 0` is `Int.fdiv a b`, and
  `math.ceil(a / b)` is `-Int.fdiv (-a) b`; Python's `%` with a positive
  modulus agrees with `Int.emod`;
* a CP-SAT boolean assignment is a function from variable keys `(mid, s)`
  to `Bool`, and each posted constraint becomes a `Prop` about it.
-/

namespace Scheduler

/-- Minutes per discrete slot: `SLOT_MIN = 30` (line 20 of the source). -/
def SLOT_MIN : ℕ := 30

/-- Slots in one day: `SLOTS_PER_DAY = 24 * 60 // SLOT_MIN` (line 21 of the source). -/
def SLOTS_PER_DAY : ℕ := 24 * 60 / SLOT_MIN

/-- One-day horizon: `HORIZON_SLOTS = SLOTS_PER_DAY` (line 23 of the source). -/
def HORIZON_SLOTS : ℕ := SLOTS_PER_DAY

/-- A meeting row `(meeting_id, team_name, duration_minutes, required_names)`
(lines 35–39 of the source). -/
structure Meeting where
  mid : String
  team : String
  dur_min : ℕ
  required : List String
deriving DecidableEq

/-- The function `local_window_to_utc_slots` (lines 42–54): shift the local working window
into UTC minutes, take `floor`/`ceil` slot bounds, and mark exactly the slots
`s` of the one-day horizon with `start_slot ≤ s < end_slot`.  The source fills
a `[False]*HORIZON_SLOTS` list and sets index `s` to `True` under the same
condition, which is the `List.map` below. -/
def local_window_to_utc_slots (offset_minutes : ℤ) (start_local end_local : ℕ) :
    List Bool :=
  let start_utc_minutes : ℤ := (start_local : ℤ) - offset_minutes
  let end_utc_minutes : ℤ := (end_local : ℤ) - offset_minutes
  let start_slot : ℤ := start_utc_minutes.fdiv SLOT_MIN
  let end_slot : ℤ := -((-end_utc_minutes).fdiv SLOT_MIN)
  (List.range HORIZON_SLOTS).map fun (s : ℕ) =>
    decide (start_slot ≤ (s : ℤ) ∧ (s : ℤ) < end_slot)

/-- The availability vector as the spec's §8 property (claim C1) describes it:
true exactly on the slots whose shifted window position is normalized modulo
the horizon, i.e. a window whose shifted start/end falls outside the day wraps
around instead of being dropped.  This definition follows the spec's words and
is compared against `local_window_to_utc_slots`, which is translated from the
source. -/
def local_window_to_utc_slots_spec_wrap (offset_minutes : ℤ)
    (start_local end_local : ℕ) : List Bool :=
  let start_slot : ℤ := (((start_local : ℤ) - offset_minutes)).fdiv SLOT_MIN
  let end_slot : ℤ := -((-((end_local : ℤ) - offset_minutes)).fdiv SLOT_MIN)
  let ss : ℤ := start_slot % (HORIZON_SLOTS : ℤ)
  let es : ℤ := end_slot % (HORIZON_SLOTS : ℤ)
  (List.range HORIZON_SLOTS).map fun (s : ℕ) =>
    if ss ≤ es then decide (ss ≤ (s : ℤ) ∧ (s : ℤ) < es)
    else decide (ss ≤ (s : ℤ) ∨ (s : ℤ) < es)

/-- The function `slot_to_local_hour` (lines 62–68): the slot's UTC midpoint shifted by the
participant's offset, reduced modulo one day, returned as (possibly
fractional) local clock hour. -/
def slot_to_local_hour (slot_index : ℕ) (offset_minutes : ℤ) : ℚ :=
  let minutes_utc : ℤ := (slot_index : ℤ) * SLOT_MIN + (SLOT_MIN : ℤ) / 2
  let minutes_local : ℤ := (minutes_utc + offset_minutes) % (24 * 60)
  let hour : ℤ := minutes_local.fdiv 60
  let minute : ℤ := minutes_local % 60
  (hour : ℚ) + (minute : ℚ) / 60

/-- Duration of one meeting in whole slots:
`dur_slots = math.ceil(dur_min / SLOT_MIN)` (line 74). -/
def meeting_duration_slots (dur_min : ℕ) : ℕ :=
  (dur_min + SLOT_MIN - 1) / SLOT_MIN

/-- The candidate-start computation of lines 76–88: slide a window of
`dur_slots` slots over `range(HORIZON_SLOTS - dur_slots + 1)`; a start `s`
survives iff every required participant's availability vector is true on all
of `[s, s + dur_slots)`.  `avail` plays the role of the `participant_avail`
dictionary. -/
def meeting_candidates (avail : String → List Bool) (required : List String)
    (dur_slots : ℕ) : List ℕ :=
  (List.range (HORIZON_SLOTS + 1 - dur_slots)).filter fun s =>
    required.all fun p =>
      (List.range' s dur_slots).all fun t => (avail p).getD t false

/-- The function `slot_discomfort_for_participant` (lines 121–130), with the participant's
offset already looked up from `participant_utc_offsets`: zero inside local
9–17, otherwise `int(math.ceil(dist * 10))` where `dist` is the distance in
hours to 9 (when before) or to 17 (when after). -/
def slot_discomfort_for_participant (slot : ℕ) (offset_minutes : ℤ) : ℤ :=
  let local_hour := slot_to_local_hour slot offset_minutes
  if 9 ≤ local_hour ∧ local_hour < 17 then 0
  else if local_hour < 9 then ⌈(9 - local_hour) * 10⌉
  else ⌈(local_hour - 17) * 10⌉

/-- The per-slot penalty as the spec's §4.4 (claim C4) words it: `0` if the
local hour is inside `[9, 17)`, otherwise `ceil(10 × distance_in_hours)` to
the nearest boundary — 9 if before, 17 if after.  Compared against the
source-derived `slot_discomfort_for_participant`. -/
def discomfort_spec (local_hour : ℚ) : ℤ :=
  if 9 ≤ local_hour ∧ local_hour < 17 then 0
  else ⌈10 * (if local_hour < 9 then 9 - local_hour else local_hour - 17)⌉

/-- The cost `start_cost[(mid, s)]` (lines 132–140): the discomfort of one candidate,
accumulated over `t in range(s, s + dur)` and the meeting's required
participants.  `offsets` plays the role of `participant_utc_offsets`. -/
def start_cost (offsets : String → ℤ) (required : List String)
    (dur s : ℕ) : ℤ :=
  ((List.range' s dur).map fun t =>
    (required.map fun p => slot_discomfort_for_participant t (offsets p)).sum).sum

/-- The exactly-once block for one meeting (lines 98–104).  `vars_for_mid`
lists the decision-variable keys of the meeting's candidates.  When it is
empty the source posts `model.AddBoolOr([])` — "some literal of the empty
list is true", which no assignment satisfies; otherwise it posts
`sum(vars_for_mid) == 1`. -/
def exactly_once_constraint (assign : String × ℕ → Bool) (mid : String)
    (cands : List ℕ) : Prop :=
  let vars_for_mid := cands.map fun s => (mid, s)
  if vars_for_mid.isEmpty then
    (vars_for_mid.any fun v => assign v) = true
  else
    vars_for_mid.countP (fun v => assign v) = 1

/-- All exactly-once constraints over the meeting table (lines 98–104). -/
def all_meetings_scheduled_constraints (meetings : List Meeting)
    (cands : String → List ℕ) (assign : String × ℕ → Bool) : Prop :=
  ∀ m ∈ meetings, exactly_once_constraint assign m.mid (cands m.mid)

/-- The `occupying` list of the no-double-booking loop (lines 107–116): the
decision-variable keys `(mid, s)` whose candidate interval covers slot `t`
for participant `p`. -/
def covering_vars (meetings : List Meeting) (cands : String → List ℕ)
    (dur : String → ℕ) (p : String) (t : ℕ) : List (String × ℕ) :=
  meetings.flatMap fun m =>
    if p ∈ m.required then
      ((cands m.mid).filter fun s =>
        decide (s ≤ t ∧ t < s + dur m.mid)).map fun s => (m.mid, s)
    else []

/-- The `(participant, slot)` pairs for which lines 107–118 actually post a
`sum(occupying) <= 1` constraint: exactly those whose `occupying` list is
non-empty (`if occupying:`). -/
def emitted_pairs (names : List String) (meetings : List Meeting)
    (cands : String → List ℕ) (dur : String → ℕ) : List (String × ℕ) :=
  names.flatMap fun p =>
    ((List.range HORIZON_SLOTS).filter fun t =>
      decide (covering_vars meetings cands dur p t ≠ [])).map fun t => (p, t)

/-- Satisfaction of every posted no-double-booking constraint (line 118). -/
def no_double_booking_sat (names : List String) (meetings : List Meeting)
    (cands : String → List ℕ) (dur : String → ℕ)
    (assign : String × ℕ → Bool) : Prop :=
  ∀ pr ∈ emitted_pairs names meetings cands dur,
    (covering_vars meetings cands dur pr.1 pr.2).countP assign ≤ 1

/-- Satisfaction of the whole posted constraint system: every exactly-once
constraint and every no-double-booking constraint. -/
def encoding_sat (names : List String) (meetings : List Meeting)
    (cands : String → List ℕ) (dur : String → ℕ)
    (assign : String × ℕ → Bool) : Prop :=
  all_meetings_scheduled_constraints meetings cands assign ∧
    no_double_booking_sat names meetings cands dur assign

/-- The five CP-SAT solver statuses, with the proto enum values the source
would print (`cp_model` statuses UNKNOWN=0, MODEL_INVALID=1, FEASIBLE=2,
INFEASIBLE=3, OPTIMAL=4). -/
inductive CpStatus where
  | unknown
  | model_invalid
  | feasible
  | infeasible
  | optimal
deriving DecidableEq

/-- The integer value of a status, as `print` renders it. -/
def statusInt : CpStatus → ℕ
  | .unknown => 0
  | .model_invalid => 1
  | .feasible => 2
  | .infeasible => 3
  | .optimal => 4

/-- The post-solve dispatch of lines 155–187: for `OPTIMAL`/`FEASIBLE` the
script proceeds to decoding (modelled as `none`); for every other status it
prints `"No feasible solution found. Solver status:"` followed by the raw
status value (modelled as `some` of that line). -/
def solve_report (status : CpStatus) : Option String :=
  if status = .optimal ∨ status = .feasible then none
  else some ("No feasible solution found. Solver status: " ++
    toString (statusInt status))

/-- The `start_utc` timestamp of a chosen candidate, in minutes since `EPOCH_DATE`
(line 166: `EPOCH_DATE + timedelta(minutes=chosen*SLOT_MIN)`). -/
def start_utc_minutes (chosen : ℕ) : ℕ := chosen * SLOT_MIN

/-- The `end_utc` timestamp of a chosen candidate, in minutes since `EPOCH_DATE`
(line 167: `start_utc + timedelta(minutes=meeting_duration_slots[mid]*SLOT_MIN)`). -/
def end_utc_minutes (chosen dur_min : ℕ) : ℕ :=
  start_utc_minutes chosen + meeting_duration_slots dur_min * SLOT_MIN

/-! ## Helper lemmas about the availability resolver -/

/-- Python `math.floor(a / SLOT_MIN)` on an integer numerator is `Int.fdiv`. -/
lemma floor_div_slot_min (a : ℤ) :
    ⌊((a : ℚ) / (SLOT_MIN : ℚ))⌋ = a.fdiv (SLOT_MIN : ℤ) := by
  have h := Rat.floor_intCast_div_natCast a SLOT_MIN
  rw [h, Int.fdiv_eq_ediv a (by norm_num [SLOT_MIN])]

/-- Python `math.ceil(a / SLOT_MIN)` on an integer numerator is `-Int.fdiv (-a)`. -/
lemma ceil_div_slot_min (a : ℤ) :
    ⌈((a : ℚ) / (SLOT_MIN : ℚ))⌉ = -((-a).fdiv (SLOT_MIN : ℤ)) := by
  have h : ⌊((-a : ℤ) : ℚ) / ((SLOT_MIN : ℕ) : ℚ)⌋ = (-a) / (SLOT_MIN : ℤ) :=
    Rat.floor_intCast_div_natCast (-a) SLOT_MIN
  have h2 : ⌊-((a : ℚ) / (SLOT_MIN : ℚ))⌋ = -⌈((a : ℚ) / (SLOT_MIN : ℚ))⌉ :=
    Int.floor_neg
  rw [show ((-a : ℤ) : ℚ) / ((SLOT_MIN : ℕ) : ℚ) = -((a : ℚ) / (SLOT_MIN : ℚ)) by
    push_cast; ring] at h
  have h3 : (-a).fdiv (SLOT_MIN : ℤ) = (-a) / (SLOT_MIN : ℤ) :=
    Int.fdiv_eq_ediv (-a) (by norm_num [SLOT_MIN])
  omega

/-- The availability list always has one entry per horizon slot. -/
lemma length_local_window (off : ℤ) (a b : ℕ) :
    (local_window_to_utc_slots off a b).length = HORIZON_SLOTS := by
  simp [local_window_to_utc_slots]

/-- Entry `s` of the availability list, written out. -/
lemma getD_local_window (off : ℤ) (a b : ℕ) (s : ℕ) (hs : s < HORIZON_SLOTS) :
    (local_window_to_utc_slots off a b).getD s false =
      decide ((((a : ℤ) - off).fdiv (SLOT_MIN : ℤ) ≤ (s : ℤ)) ∧
        ((s : ℤ) < -((-((b : ℤ) - off)).fdiv (SLOT_MIN : ℤ)))) := by
  unfold local_window_to_utc_slots
  rw [List.getD_eq_getElem?_getD]
  simp only [List.getElem?_map]
  rw [List.getElem?_range hs]
  rfl

/-- The availability vector is true exactly on the slots of the shifted
floor/ceil window clamped to `[0, HORIZON_SLOTS)`. -/
lemma local_window_true_iff (off : ℤ) (a b : ℕ) (s : ℕ)
    (hs : s < HORIZON_SLOTS) :
    (local_window_to_utc_slots off a b).getD s false = true ↔
      (max 0 ⌊((((a : ℤ) - off : ℤ) : ℚ) / (SLOT_MIN : ℚ))⌋ ≤ (s : ℤ) ∧
        (s : ℤ) < min (HORIZON_SLOTS : ℤ) ⌈((((b : ℤ) - off : ℤ) : ℚ) / (SLOT_MIN : ℚ))⌉) := by
  rw [getD_local_window off a b s hs, floor_div_slot_min, ceil_div_slot_min]
  simp only [decide_eq_true_eq]
  have h0 : (0 : ℤ) ≤ (s : ℤ) := Int.ofNat_nonneg s
  have h48 : (s : ℤ) < (HORIZON_SLOTS : ℤ) := by exact_mod_cast hs
  omega

/-! ## Claims C1 and C9: availability clamps, it does not wrap -/

/-- C1 (counterexample): at UTC offset `+14` (840 minutes, inside `[-12,+14]`)
with local window 9:00–17:00, the claim's modulo-the-day reading marks slot 38
available (its wrapped window position is slot `-10 ≡ 38 (mod 48)`), but the
vector the code produces is false there: the wrapped-around portion of the
shifted window is dropped, not normalized. -/
theorem local_window_wrap_counterexample :
    (local_window_to_utc_slots 840 540 1020).getD 38 false = false ∧
    (local_window_to_utc_slots_spec_wrap 840 540 1020).getD 38 false = true := by
  decide

/-- C1 (amended): for every UTC offset in `[-12, +14]` (given in whole
minutes), the availability vector has length exactly `HORIZON_SLOTS` and is
true exactly on the slots of the shifted window `[floor(start/SLOT_MIN),
ceil(end/SLOT_MIN))` clamped to `[0, HORIZON_SLOTS)`; the portion of a
negative or >24h shifted window that falls outside the horizon is dropped
rather than wrapped modulo the day. -/
theorem availability_vector_clamped (off : ℤ) (a b : ℕ)
    (_h1 : -720 ≤ off) (_h2 : off ≤ 840) :
    (local_window_to_utc_slots off a b).length = HORIZON_SLOTS ∧
    ∀ s : ℕ, s < HORIZON_SLOTS →
      ((local_window_to_utc_slots off a b).getD s false = true ↔
        (max 0 ⌊((((a : ℤ) - off : ℤ) : ℚ) / (SLOT_MIN : ℚ))⌋ ≤ (s : ℤ) ∧
          (s : ℤ) < min (HORIZON_SLOTS : ℤ)
            ⌈((((b : ℤ) - off : ℤ) : ℚ) / (SLOT_MIN : ℚ))⌉)) :=
  ⟨length_local_window off a b, fun s hs => local_window_true_iff off a b s hs⟩

/-- Witness for `availability_vector_clamped` at offset `+14` (840 minutes),
window 9:00–17:00, slot 38. -/
theorem availability_vector_clamped_witness :
    (local_window_to_utc_slots 840 540 1020).length = HORIZON_SLOTS ∧
    ((local_window_to_utc_slots 840 540 1020).getD 38 false = true ↔
      (max 0 ⌊((((540 : ℤ) - 840 : ℤ) : ℚ) / (SLOT_MIN : ℚ))⌋ ≤ ((38 : ℕ) : ℤ) ∧
        ((38 : ℕ) : ℤ) < min (HORIZON_SLOTS : ℤ)
          ⌈((((1020 : ℤ) - 840 : ℤ) : ℚ) / (SLOT_MIN : ℚ))⌉)) :=
  ⟨(availability_vector_clamped 840 540 1020 (by norm_num) (by norm_num)).1,
   (availability_vector_clamped 840 540 1020 (by norm_num) (by norm_num)).2
     38 (by norm_num [HORIZON_SLOTS, SLOTS_PER_DAY, SLOT_MIN])⟩

/-- C9: `local_window_to_utc_slots` clamps rather than wraps — with
`startSlot = floor((localStart − offset)/SLOT_MIN)` and
`endSlot = ceil((localEnd − offset)/SLOT_MIN)`, slot `s` of the vector is true
exactly when `max 0 startSlot ≤ s < min HORIZON_SLOTS endSlot`; the portion of
the shifted window before slot 0 or at/after `HORIZON_SLOTS` is silently
dropped and no wrap-around modulo the day is performed. -/
theorem local_window_clamps (off : ℤ) (a b : ℕ) (s : ℕ)
    (hs : s < HORIZON_SLOTS) :
    (local_window_to_utc_slots off a b).getD s false = true ↔
      (max 0 ⌊((((a : ℤ) - off : ℤ) : ℚ) / (SLOT_MIN : ℚ))⌋ ≤ (s : ℤ) ∧
        (s : ℤ) < min (HORIZON_SLOTS : ℤ)
          ⌈((((b : ℤ) - off : ℤ) : ℚ) / (SLOT_MIN : ℚ))⌉) :=
  local_window_true_iff off a b s hs

/-- Witness for `local_window_clamps`: Alice's row (offset −2h, window
9:00–17:00) at slot 22, the first slot of her shifted window. -/
theorem local_window_clamps_witness :
    (local_window_to_utc_slots (-120) 540 1020).getD 22 false = true ↔
      (max 0 ⌊((((540 : ℤ) - (-120) : ℤ) : ℚ) / (SLOT_MIN : ℚ))⌋ ≤ ((22 : ℕ) : ℤ) ∧
        ((22 : ℕ) : ℤ) < min (HORIZON_SLOTS : ℤ)
          ⌈((((1020 : ℤ) - (-120) : ℤ) : ℚ) / (SLOT_MIN : ℚ))⌉) :=
  local_window_clamps (-120) 540 1020 22
    (by norm_num [HORIZON_SLOTS, SLOTS_PER_DAY, SLOT_MIN])

/-! ## Claim C2: candidate characterization -/

/-- C2: the candidate set of a meeting contains a start slot `s` if and only
if `0 ≤ s ≤ HORIZON_SLOTS − durationSlots` and every required participant's
availability vector is true at every slot `t ∈ [s, s + durationSlots)`. -/
theorem meeting_candidates_iff (avail : String → List Bool)
    (required : List String) (dur_slots s : ℕ) :
    s ∈ meeting_candidates avail required dur_slots ↔
      ((s : ℤ) ≤ (HORIZON_SLOTS : ℤ) - (dur_slots : ℤ) ∧
        ∀ p ∈ required, ∀ t : ℕ, s ≤ t → t < s + dur_slots →
          (avail p).getD t false = true) := by
  unfold meeting_candidates
  rw [List.mem_filter, List.mem_range]
  constructor
  · rintro ⟨hrange, hall⟩
    refine ⟨by omega, ?_⟩
    intro p hp t h1 h2
    rw [List.all_eq_true] at hall
    have := hall p hp
    rw [List.all_eq_true] at this
    exact this t (List.mem_range'_1.mpr ⟨h1, h2⟩)
  · rintro ⟨hbound, hall⟩
    refine ⟨by omega, ?_⟩
    rw [List.all_eq_true]
    intro p hp
    rw [List.all_eq_true]
    intro t ht
    have := List.mem_range'_1.mp ht
    exact hall p hp t this.1 this.2

/-- Witness for `meeting_candidates_iff`: slot 18 is a candidate of a
30-minute meeting of one participant with window 9:00–17:00 at UTC+0, so the
bound and the availability conditions hold there. -/
theorem meeting_candidates_iff_witness :
    ((18 : ℕ) : ℤ) ≤ (HORIZON_SLOTS : ℤ) - ((1 : ℕ) : ℤ) ∧
      ∀ p ∈ ["Eve"], ∀ t : ℕ, 18 ≤ t → t < 18 + 1 →
        ((fun _ : String => local_window_to_utc_slots 0 540 1020) p).getD t false
          = true :=
  (meeting_candidates_iff (fun _ => local_window_to_utc_slots 0 540 1020)
    ["Eve"] 1 18).mp (by decide)

/-! ## Claim C3: no double-booking -/

/-- Membership in the emitted `(participant, slot)` constraint keys. -/
lemma mem_emitted_pairs (names : List String) (meetings : List Meeting)
    (cands : String → List ℕ) (dur : String → ℕ) (p : String) (t : ℕ) :
    (p, t) ∈ emitted_pairs names meetings cands dur ↔
      (p ∈ names ∧ t < HORIZON_SLOTS ∧
        covering_vars meetings cands dur p t ≠ []) := by
  unfold emitted_pairs
  simp only [List.mem_flatMap, List.mem_map, List.mem_filter, List.mem_range,
    decide_eq_true_eq, Prod.mk.injEq]
  constructor
  · rintro ⟨q, hq, u, ⟨hu, hcov⟩, hqp, hut⟩
    subst hqp; subst hut
    exact ⟨hq, hu, hcov⟩
  · rintro ⟨hp, ht, hcov⟩
    exact ⟨p, hp, t, ⟨ht, hcov⟩, rfl, rfl⟩

/-- C3: any assignment satisfying every posted no-double-booking constraint
books each (participant, slot) pair at most once, and the encoder posts the
`≤ 1` constraint exactly for the pairs covered by at least one decision
variable, skipping uncovered pairs. -/
theorem no_double_booking (names : List String) (meetings : List Meeting)
    (cands : String → List ℕ) (dur : String → ℕ) :
    (∀ assign : String × ℕ → Bool,
      no_double_booking_sat names meetings cands dur assign →
      ∀ p ∈ names, ∀ t : ℕ, t < HORIZON_SLOTS →
        (covering_vars meetings cands dur p t).countP assign ≤ 1) ∧
    (∀ p t, (p, t) ∈ emitted_pairs names meetings cands dur ↔
      (p ∈ names ∧ t < HORIZON_SLOTS ∧
        covering_vars meetings cands dur p t ≠ [])) := by
  constructor
  · intro assign hsat p hp t ht
    by_cases hcov : covering_vars meetings cands dur p t = []
    · rw [hcov]; simp
    · exact hsat (p, t)
        ((mem_emitted_pairs names meetings cands dur p t).mpr ⟨hp, ht, hcov⟩)
  · exact fun p t => mem_emitted_pairs names meetings cands dur p t

/-- Witness for `no_double_booking`: one meeting of participant `"P"` with
the single candidate start 0, all variables set true; the satisfied
constraints bound the booking count of `("P", 0)` by one. -/
theorem no_double_booking_witness :
    (covering_vars [⟨"M", "T", 30, ["P"]⟩] (fun _ => [0]) (fun _ => 1)
      "P" 0).countP (fun _ => true) ≤ 1 :=
  (no_double_booking ["P"] [⟨"M", "T", 30, ["P"]⟩] (fun _ => [0])
    (fun _ => 1)).1 (fun _ => true) (by unfold no_double_booking_sat; decide)
    "P" (by decide) 0 (by decide)

/-! ## Claim C5: an empty candidate set makes the encoding infeasible -/

/-- C5: if some meeting's candidate set is empty, the `model.AddBoolOr([])`
marker posted for it is unconditionally unsatisfiable, so no assignment
satisfies the posted constraint system — the encoding fails fast instead of
silently dropping the meeting. -/
theorem empty_candidates_infeasible (names : List String)
    (meetings : List Meeting) (cands : String → List ℕ) (dur : String → ℕ)
    (m : Meeting) (hm : m ∈ meetings) (hc : cands m.mid = []) :
    ∀ assign : String × ℕ → Bool,
      ¬ encoding_sat names meetings cands dur assign := by
  intro assign hsat
  have h := hsat.1 m hm
  rw [hc] at h
  simp [exactly_once_constraint] at h

/-- Witness for `empty_candidates_infeasible`: a one-meeting table whose
candidate map is empty admits no satisfying assignment; shown for the
all-false assignment. -/
theorem empty_candidates_infeasible_witness :
    ¬ encoding_sat ["P"] [⟨"M", "T", 30, ["P"]⟩] (fun _ => [])
      (fun _ => 1) (fun _ => false) :=
  empty_candidates_infeasible ["P"] [⟨"M", "T", 30, ["P"]⟩] (fun _ => [])
    (fun _ => 1) ⟨"M", "T", 30, ["P"]⟩ (by decide) rfl (fun _ => false)

/-! ## Claim C4: the discomfort cost model -/

/-- Evaluation form of `slot_to_local_hour`: the local hour is the reduced
local minute count divided by 60. -/
lemma slot_to_local_hour_eq (s : ℕ) (off : ℤ) :
    slot_to_local_hour s off =
      ((((s : ℤ) * (SLOT_MIN : ℤ) + (SLOT_MIN : ℤ) / 2 + off) % (24 * 60) : ℤ) : ℚ)
        / 60 := by
  simp only [slot_to_local_hour]
  set m : ℤ := ((s : ℤ) * (SLOT_MIN : ℤ) + (SLOT_MIN : ℤ) / 2 + off) % (24 * 60)
    with hm
  have hfd : m.fdiv 60 = m / 60 := Int.fdiv_eq_ediv m (by norm_num)
  have hsplit : (60 : ℤ) * (m / 60) + m % 60 = m := Int.ediv_add_emod m 60
  rw [hfd]
  have hq := congrArg (fun z : ℤ => (z : ℚ)) hsplit
  push_cast at hq
  field_simp
  linarith

/-- The source's per-slot penalty agrees with the spec's formula pointwise. -/
lemma slot_discomfort_eq_spec (t : ℕ) (off : ℤ) :
    slot_discomfort_for_participant t off =
      discomfort_spec (slot_to_local_hour t off) := by
  simp only [slot_discomfort_for_participant, discomfort_spec]
  split_ifs
  · rfl
  · congr 1; ring
  · congr 1; ring

/-- The per-slot penalty is never negative. -/
lemma slot_discomfort_nonneg (t : ℕ) (off : ℤ) :
    0 ≤ slot_discomfort_for_participant t off := by
  simp only [slot_discomfort_for_participant]
  split_ifs with h1 h2
  · exact le_refl 0
  · exact Int.ceil_nonneg (by nlinarith)
  · rcases not_and_or.mp h1 with h3 | h3
    · exact absurd (le_of_not_lt h2) (by simpa using h3)
    · exact Int.ceil_nonneg (by nlinarith [le_of_not_lt h3])

/-- C4: the discomfort cost attached to a candidate equals the sum, over the
occupied slots `t ∈ [s, s + dur)` and the required participants `p`, of the
spec's penalty — `0` when `p`'s local hour at the slot midpoint lies in
`[9, 17)`, otherwise `ceil(10 ×` distance to the nearest boundary`)` — and
every such cost is a non-negative integer. -/
theorem start_cost_matches_penalty (offsets : String → ℤ)
    (required : List String) (dur s : ℕ) :
    start_cost offsets required dur s =
      ((List.range' s dur).map fun t =>
        (required.map fun p =>
          discomfort_spec (slot_to_local_hour t (offsets p))).sum).sum ∧
    0 ≤ start_cost offsets required dur s := by
  constructor
  · unfold start_cost
    simp only [slot_discomfort_eq_spec]
  · unfold start_cost
    apply List.sum_nonneg
    intro x hx
    simp only [List.mem_map] at hx
    obtain ⟨t, _, rfl⟩ := hx
    apply List.sum_nonneg
    intro y hy
    simp only [List.mem_map] at hy
    obtain ⟨p, _, rfl⟩ := hy
    exact slot_discomfort_nonneg t (offsets p)

/-! ## Claim C6: the offset +14 scenario -/

/-- C6 (counterexample): a 30-minute meeting requiring one participant with
UTC offset `+14` (840 minutes) and local window 9:00–17:00 does NOT get an
empty candidate set — the clamped availability covers slots 0–5, so
candidates exist. -/
theorem plus14_window_counterexample :
    meeting_candidates (fun _ => local_window_to_utc_slots 840 540 1020)
      ["P"] 1 ≠ [] := by
  decide

/-- C6 (amended): at offset `+14` with window 9:00–17:00 the clamped shifted
window still overlaps the horizon (slots 0–5), so a 30-minute meeting
requiring that participant has candidate set `[0, 1, 2, 3, 4, 5]`.  A window
whose shifted image lies entirely outside the horizon — e.g. 9:00–11:00 local
at `+14` — does give an all-false availability vector and an empty candidate
set, and then the encoder's `AddBoolOr([])` marker makes the posted
constraint system unsatisfiable; the run reports the generic solver
infeasibility, not a structured `EmptyCandidateSet` failure. -/
theorem plus14_window_amended :
    meeting_candidates (fun _ => local_window_to_utc_slots 840 540 1020)
      ["P"] 1 = [0, 1, 2, 3, 4, 5] ∧
    local_window_to_utc_slots 840 540 660 = List.replicate HORIZON_SLOTS false ∧
    meeting_candidates (fun _ => local_window_to_utc_slots 840 540 660)
      ["P"] 1 = [] ∧
    ∀ assign : String × ℕ → Bool,
      ¬ encoding_sat ["P"] [⟨"M", "T", 30, ["P"]⟩]
        (fun _ => meeting_candidates
          (fun _ => local_window_to_utc_slots 840 540 660) ["P"] 1)
        (fun _ => 1) assign := by
  refine ⟨by decide, by decide, by decide, ?_⟩
  intro assign hsat
  have h := hsat.1 ⟨"M", "T", 30, ["P"]⟩ (by decide)
  rw [show meeting_candidates
      (fun _ => local_window_to_utc_slots 840 540 660) ["P"] 1 = []
    from by decide] at h
  simp [exactly_once_constraint] at h

/-- Witness for `plus14_window_amended`: the all-false assignment does not
satisfy the encoding built from the empty candidate set. -/
theorem plus14_window_amended_witness :
    ¬ encoding_sat ["P"] [⟨"M", "T", 30, ["P"]⟩]
      (fun _ => meeting_candidates
        (fun _ => local_window_to_utc_slots 840 540 660) ["P"] 1)
      (fun _ => 1) (fun _ => false) :=
  plus14_window_amended.2.2.2 (fun _ => false)

/-! ## Claim C7: the UNKNOWN solver status -/

/-- C7 (counterexample): for the `UNKNOWN` status (value 0) the program
prints the same "No feasible solution found" line used for infeasibility —
there is no distinct "timed out" outcome. -/
theorem unknown_status_counterexample :
    solve_report CpStatus.unknown =
      some "No feasible solution found. Solver status: 0" := rfl

/-- C7 (amended): `UNKNOWN` and `INFEASIBLE` both fall into the same
non-feasible `else` branch and produce the same "No feasible solution found"
message; the two outcomes differ only in the echoed raw status value (0
versus 3), and no "timed out" outcome exists. -/
theorem unknown_vs_infeasible_report :
    solve_report CpStatus.unknown =
      some "No feasible solution found. Solver status: 0" ∧
    solve_report CpStatus.infeasible =
      some "No feasible solution found. Solver status: 3" ∧
    solve_report CpStatus.unknown ≠ solve_report CpStatus.infeasible := by
  refine ⟨rfl, rfl, ?_⟩
  decide

/-! ## Claim C8: the three-participant UTC+0 scenario -/

/-- C8: with three participants whose window is 9:00–17:00 at UTC+0 and one
30-minute meeting requiring all three, the candidate set is exactly slots
18–33 and the discomfort cost of every candidate is 0. -/
theorem scenario_three_participants_utc0 :
    meeting_candidates (fun _ => local_window_to_utc_slots 0 540 1020)
      ["A", "B", "C"] (meeting_duration_slots 30) =
      [18, 19, 20, 21, 22, 23, 24, 25, 26, 27, 28, 29, 30, 31, 32, 33] ∧
    ∀ s ∈ [18, 19, 20, 21, 22, 23, 24, 25, 26, 27, 28, 29, 30, 31, 32, 33],
      start_cost (fun _ => 0) ["A", "B", "C"] (meeting_duration_slots 30) s
        = 0 := by
  refine ⟨by decide, ?_⟩
  intro s hs
  fin_cases hs <;>
  · norm_num [start_cost, slot_discomfort_for_participant, slot_to_local_hour_eq,
      meeting_duration_slots, SLOT_MIN, List.range']

/-! ## Claim C10: reported end time rounds the duration up to whole slots -/

/-- C10: the decoded end timestamp is the start plus
`ceil(durationMinutes / SLOT_MIN) * SLOT_MIN` minutes; when the duration is
not a multiple of `SLOT_MIN`, the end extends past the requested duration by
exactly the rounding remainder `SLOT_MIN − durationMinutes % SLOT_MIN`. -/
theorem end_utc_rounds_up (chosen dur_min : ℕ) :
    end_utc_minutes chosen dur_min =
      start_utc_minutes chosen + meeting_duration_slots dur_min * SLOT_MIN ∧
    (dur_min % SLOT_MIN ≠ 0 →
      end_utc_minutes chosen dur_min =
        start_utc_minutes chosen + dur_min + (SLOT_MIN - dur_min % SLOT_MIN)) := by
  refine ⟨rfl, ?_⟩
  intro h
  unfold end_utc_minutes meeting_duration_slots start_utc_minutes SLOT_MIN at *
  omega

/-- Witness for `end_utc_rounds_up`: a 40-minute meeting chosen at slot 0
ends 60 minutes after its start — 20 minutes past the requested duration. -/
theorem end_utc_rounds_up_witness :
    end_utc_minutes 0 40 =
      start_utc_minutes 0 + 40 + (SLOT_MIN - 40 % SLOT_MIN) :=
  (end_utc_rounds_up 0 40).2 (by decide)

end Scheduler
